import Mathlib

/-!
# Verification of the `graph` terminal-plotting library

Shallow embedding of `src/src/lib.rs`.  Rust `f32` arithmetic in the
chart renderers is modelled by exact rational arithmetic (`ℚ`); the
`HBar` glyph computation, whose safety claim covers NaN inputs, is
modelled by an `F32q` type that adjoins a NaN element to `ℚ` with
Rust's `f32::max` / `f32::min` / `as usize` semantics.
-/

namespace GraphLib

/-- Rust `as usize` on a nonnegative finite float truncates toward zero
and saturates at 0 for negative values: on `ℚ` this is `⌊q⌋.toNat`. -/
def ratToUsize (q : ℚ) : ℕ := ⌊q⌋.toNat

/-- Model of `starfield_render::Buffer<bool>`: dimensions plus a total
grid function (the external crate's buffer, treated as a collaborator). -/
structure Buffer where
  width : ℕ
  height : ℕ
  grid : ℕ → ℕ → Bool

/-- `Buffer::new(width, height, default)`. -/
def Buffer.new (width height : ℕ) (dflt : Bool) : Buffer :=
  ⟨width, height, fun _ _ => dflt⟩

/-- `Buffer::set(x, y, value)`. -/
def Buffer.set (b : Buffer) (x y : ℕ) (v : Bool) : Buffer :=
  { b with grid := fun i j => if i = x ∧ j = y then v else b.grid i j }

/-- `pub struct Graph<D>`: a boolean buffer, the current dataset and the
renderer closure. -/
structure Graph (D : Type) where
  buf : Buffer
  data : D
  renderer : D → ℕ → ℕ → Bool

/-- `Graph::render`: `for x in 0..width { for y in 0..height { buf.set(x, y, renderer(&data, x, y)) } }`. -/
def Graph.render {D : Type} (g : Graph D) : Graph D :=
  { g with
    buf := (List.range g.buf.width).foldl
      (fun b x => (List.range g.buf.height).foldl
        (fun b' y => b'.set x y (g.renderer g.data x y)) b)
      g.buf }

/-- `Graph::set_data`: swap the dataset, re-render, return the old data. -/
def Graph.set_data {D : Type} (g : Graph D) (data : D) : D × Graph D :=
  (g.data, Graph.render { g with data := data })

/-- The index a histogram column `x` reads from: `pos = dat.len() as f32 * x as f32 / width as f32; let index = pos as usize`. -/
def histIndex (len width x : ℕ) : ℕ :=
  ratToUsize ((len : ℚ) * (x : ℚ) / (width : ℚ))

/-- The closure built by `Graph::hist`: `if dat.len() <= 1 { false } else { ...; key(&dat[index]) >= h }`.
The Rust indexing `dat[index]` panics out of bounds; here an
out-of-bounds fetch yields `false` (it is proved unreachable under the
guard, see the safety claim). -/
def histRenderer {V : Type} (width height : ℕ) (key : V → ℚ) (dat : List V) (x y : ℕ) : Bool :=
  if dat.length ≤ 1 then
    false
  else
    match dat[histIndex dat.length width x]? with
    | some v => decide (key v ≥ (y : ℚ) / (height : ℚ))
    | none => false

/-- `Graph::hist(width, height, key)`. -/
def hist {V : Type} (width height : ℕ) (key : V → ℚ) : Graph (List V) :=
  { buf := Buffer.new width height false
    data := []
    renderer := histRenderer width height key }

/-- The closure built by `Graph::scatter`: the early-returning scan over
the dataset (`for val in dat { if a.floor() == x as f32 && b.floor() == y as f32 { return true } }; false`)
is `List.any`. -/
def scatterRenderer {V : Type} (width height : ℕ) (hkey vkey : V → ℚ) (dat : List V) (x y : ℕ) : Bool :=
  dat.any fun val =>
    decide (⌊hkey val * (width : ℚ)⌋ = (x : ℤ) ∧ ⌊vkey val * (height : ℚ)⌋ = (y : ℤ))

/-- `Graph::scatter(width, height, hkey, vkey)`. -/
def scatter {V : Type} (width height : ℕ) (hkey vkey : V → ℚ) : Graph (List V) :=
  { buf := Buffer.new width height false
    data := []
    renderer := scatterRenderer width height hkey vkey }

/-- `GridPrint::get_size` for `Graph`: `(buf.width / 2, buf.height / 2)`. -/
def Graph.get_size {D : Type} (g : Graph D) : ℕ × ℕ :=
  (g.buf.width / 2, g.buf.height / 2)

/-- One call of the public mutation API on a `Graph`. -/
inductive GraphOp (D : Type) where
  | setData : D → GraphOp D
  | render : GraphOp D

/-- Execute one API call (dropping `set_data`'s returned old dataset). -/
def applyOp {D : Type} (g : Graph D) : GraphOp D → Graph D
  | GraphOp.setData d => (g.set_data d).2
  | GraphOp.render => g.render

/-- Rust `f32` restricted to NaN plus exact (rational) finite values.
Infinities and rounding are outside this model. -/
inductive F32q where
  | nan : F32q
  | fin : ℚ → F32q

/-- `f32` multiplication on the modelled values: NaN propagates. -/
def F32q.mul : F32q → F32q → F32q
  | F32q.fin a, F32q.fin b => F32q.fin (a * b)
  | _, _ => F32q.nan

/-- `f32` subtraction on the modelled values: NaN propagates. -/
def F32q.sub : F32q → F32q → F32q
  | F32q.fin a, F32q.fin b => F32q.fin (a - b)
  | _, _ => F32q.nan

/-- Rust `f32::max`: if one argument is NaN, the other is returned. -/
def F32q.fmax : F32q → F32q → F32q
  | F32q.nan, b => b
  | a, F32q.nan => a
  | F32q.fin a, F32q.fin b => F32q.fin (max a b)

/-- Rust `f32::min`: if one argument is NaN, the other is returned. -/
def F32q.fmin : F32q → F32q → F32q
  | F32q.nan, b => b
  | a, F32q.nan => a
  | F32q.fin a, F32q.fin b => F32q.fin (min a b)

/-- Rust `as usize` on an `f32`: NaN goes to 0, finite values truncate
toward zero saturating at 0 from below. -/
def F32q.toUsize : F32q → ℕ
  | F32q.nan => 0
  | F32q.fin q => ratToUsize q

/-- Model of `starfield_render::ColorChar(fg, bg, ch)`. -/
structure ColorChar where
  fg : ℕ
  bg : ℕ
  ch : Char

/-- `static hblocks: [char; 9]`. -/
def hblocks : List Char := [' ', '▏', '▎', '▍', '▌', '▋', '▊', '▉', '█']

/-- `static vblocks: [char; 9]`. -/
def vblocks : List Char := [' ', '▁', '▂', '▃', '▄', '▅', '▆', '▇', '█']

/-- `pub struct HBar { value: f32, width: usize }`. -/
structure HBar where
  value : F32q
  width : ℕ

/-- `HBar::new(width, value)`. -/
def HBar.new (width : ℕ) (value : F32q) : HBar :=
  { value := value, width := width }

/-- The glyph index of `HBar::get_cell`:
`(9.0*(self.value*self.width as f32 - x as f32)).max(0.0).min(8.0) as usize`. -/
def HBar.glyphIndex (b : HBar) (x : ℕ) : ℕ :=
  (((F32q.fin 9).mul ((b.value.mul (F32q.fin (b.width : ℚ))).sub
      (F32q.fin (x : ℚ)))).fmax (F32q.fin 0)).fmin (F32q.fin 8) |>.toUsize

/-- `GridPrint::get_size` for `HBar`: `(width, 1)`. -/
def HBar.get_size (b : HBar) : ℕ × ℕ :=
  (b.width, 1)

/-- `GridPrint::get_cell` for `HBar`: `ColorChar(0xE7, 0x10, hblocks[index])`.
The Rust array indexing panics out of bounds; `getD` returning `' '` is
proved unreachable by the safety claim. -/
def HBar.get_cell (b : HBar) (x _y : ℕ) : ColorChar :=
  { fg := 0xE7, bg := 0x10, ch := hblocks.getD (b.glyphIndex x) ' ' }

section Lemmas

variable {D : Type}

theorem Buffer.set_width (b : Buffer) (x y : ℕ) (v : Bool) : (b.set x y v).width = b.width := rfl

theorem Buffer.set_height (b : Buffer) (x y : ℕ) (v : Bool) : (b.set x y v).height = b.height := rfl

theorem grid_foldl_col (f : ℕ → ℕ → Bool) (x : ℕ) (ys : List ℕ) (b : Buffer) (i j : ℕ) :
    ((ys.foldl (fun b' y => b'.set x y (f x y)) b).grid i j)
      = if i = x ∧ j ∈ ys then f x j else b.grid i j := by
  induction ys generalizing b with
  | nil => simp
  | cons y t ih =>
    rw [List.foldl_cons, ih]
    by_cases hx : i = x
    · subst hx
      by_cases hjt : j ∈ t
      · simp [hjt]
      · by_cases hjy : j = y
        · subst hjy
          simp [hjt, Buffer.set]
        · simp [hjt, hjy, Buffer.set]
    · simp [hx, Buffer.set]

theorem grid_foldl_rows (f : ℕ → ℕ → Bool) (h : ℕ) (xs : List ℕ) (b : Buffer) (i j : ℕ) :
    ((xs.foldl (fun bb x => (List.range h).foldl (fun b' y => b'.set x y (f x y)) bb) b).grid i j)
      = if i ∈ xs ∧ j < h then f i j else b.grid i j := by
  induction xs generalizing b with
  | nil => simp
  | cons x t ih =>
    rw [List.foldl_cons, ih, grid_foldl_col]
    by_cases hit : i ∈ t
    · by_cases hj : j < h
      · simp [hit, hj]
      · simp [hit, hj]
    · by_cases hix : i = x
      · subst hix
        simp [hit, List.mem_range]
      · simp [hit, hix]

/-- Pointwise description of `Graph::render`. -/
theorem Graph.render_grid (g : Graph D) (i j : ℕ) :
    (g.render.buf.grid i j)
      = if i < g.buf.width ∧ j < g.buf.height then g.renderer g.data i j else g.buf.grid i j := by
  show ((List.range g.buf.width).foldl _ g.buf).grid i j = _
  rw [grid_foldl_rows (fun x y => g.renderer g.data x y) g.buf.height (List.range g.buf.width) g.buf i j]
  simp [List.mem_range]

theorem dims_foldl_col (f : ℕ → ℕ → Bool) (x : ℕ) (ys : List ℕ) (b : Buffer) :
    ((ys.foldl (fun b' y => b'.set x y (f x y)) b).width = b.width
      ∧ (ys.foldl (fun b' y => b'.set x y (f x y)) b).height = b.height) := by
  induction ys generalizing b with
  | nil => exact ⟨rfl, rfl⟩
  | cons y t ih =>
    rw [List.foldl_cons]
    exact ih (b.set x y (f x y))

theorem dims_foldl_rows (f : ℕ → ℕ → Bool) (h : ℕ) (xs : List ℕ) (b : Buffer) :
    ((xs.foldl (fun bb x => (List.range h).foldl (fun b' y => b'.set x y (f x y)) bb) b).width = b.width
      ∧ (xs.foldl (fun bb x => (List.range h).foldl (fun b' y => b'.set x y (f x y)) bb) b).height = b.height) := by
  induction xs generalizing b with
  | nil => exact ⟨rfl, rfl⟩
  | cons x t ih =>
    rw [List.foldl_cons]
    refine ⟨(ih _).1.trans ?_, (ih _).2.trans ?_⟩
    · exact (dims_foldl_col f x (List.range h) b).1
    · exact (dims_foldl_col f x (List.range h) b).2

theorem Graph.render_width (g : Graph D) : g.render.buf.width = g.buf.width :=
  (dims_foldl_rows (fun x y => g.renderer g.data x y) g.buf.height (List.range g.buf.width) g.buf).1

theorem Graph.render_height (g : Graph D) : g.render.buf.height = g.buf.height :=
  (dims_foldl_rows (fun x y => g.renderer g.data x y) g.buf.height (List.range g.buf.width) g.buf).2

theorem Graph.render_data (g : Graph D) : g.render.data = g.data := rfl

theorem Graph.render_renderer (g : Graph D) : g.render.renderer = g.renderer := rfl

theorem Buffer.eq_of_fields (b1 b2 : Buffer) (hw : b1.width = b2.width)
    (hh : b1.height = b2.height) (hg : ∀ i j, b1.grid i j = b2.grid i j) : b1 = b2 := by
  obtain ⟨w1, h1, g1⟩ := b1
  obtain ⟨w2, h2, g2⟩ := b2
  simp only at hw hh hg
  subst hw
  subst hh
  have hgrid : g1 = g2 := funext fun i => funext fun j => hg i j
  rw [hgrid]

/-- Pointwise description of the buffer after `set_data`. -/
theorem Graph.set_data_grid (g : Graph D) (d : D) (i j : ℕ) :
    ((g.set_data d).2).buf.grid i j
      = if i < g.buf.width ∧ j < g.buf.height then g.renderer d i j else g.buf.grid i j :=
  Graph.render_grid (Graph.mk g.buf d g.renderer) i j

end Lemmas

section ProjLemmas

variable {V : Type} (width height : ℕ) (key hkey vkey : V → ℚ)

theorem hist_buf_width : (hist width height key).buf.width = width := rfl

theorem hist_buf_height : (hist width height key).buf.height = height := rfl

theorem hist_renderer_eq : (hist width height key).renderer = histRenderer width height key := rfl

theorem hist_buf_grid (i j : ℕ) : (hist width height key).buf.grid i j = false := rfl

theorem scatter_buf_width : (scatter width height hkey vkey).buf.width = width := rfl

theorem scatter_buf_height : (scatter width height hkey vkey).buf.height = height := rfl

theorem scatter_renderer_eq :
    (scatter width height hkey vkey).renderer = scatterRenderer width height hkey vkey := rfl

theorem scatter_buf_grid (i j : ℕ) : (scatter width height hkey vkey).buf.grid i j = false := rfl

end ProjLemmas

section Lemmas2

variable {D : Type}

theorem get_size_applyOp (g : Graph D) (op : GraphOp D) :
    (applyOp g op).get_size = g.get_size := by
  cases op with
  | setData d =>
    show (Graph.render { g with data := d }).get_size = g.get_size
    simp [Graph.get_size, Graph.render_width, Graph.render_height]
  | render =>
    simp [applyOp, Graph.get_size, Graph.render_width, Graph.render_height]

theorem get_size_foldl (ops : List (GraphOp D)) (g : Graph D) :
    (ops.foldl applyOp g).get_size = g.get_size := by
  induction ops generalizing g with
  | nil => rfl
  | cons op t ih => rw [List.foldl_cons, ih, get_size_applyOp]

end Lemmas2

/-- C3: `set_data(A)` then `set_data(B)` returns `A` from the second
call; in general `set_data(new_data)` returns exactly the previously
stored dataset and leaves `new_data` as the stored dataset. -/
theorem claim_C3 {D : Type} (g : Graph D) (A B : D) :
    (((g.set_data A).2).set_data B).1 = A
    ∧ (g.set_data A).1 = g.data ∧ ((g.set_data A).2).data = A :=
  ⟨rfl, rfl, rfl⟩

/-- C4: for a graph built by `hist` or `scatter` with effective
dimensions `W`, `H`, `get_size()` returns `(W/2, H/2)` (integer
division), unchanged by any sequence of `set_data` or `render` calls. -/
theorem claim_C4 {V : Type} (width height : ℕ) (key hkey vkey : V → ℚ)
    (ops : List (GraphOp (List V))) :
    (ops.foldl applyOp (hist width height key)).get_size = (width / 2, height / 2)
    ∧ (ops.foldl applyOp (scatter width height hkey vkey)).get_size = (width / 2, height / 2) := by
  rw [get_size_foldl, get_size_foldl]
  exact ⟨rfl, rfl⟩

/-- C6: rendering twice with unchanged data leaves the buffer exactly
as after the first render. -/
theorem claim_C6 {D : Type} (g : Graph D) : g.render.render.buf = g.render.buf := by
  apply Buffer.eq_of_fields
  · rw [Graph.render_width]
  · rw [Graph.render_height]
  · intro i j
    rw [Graph.render_grid (g.render) i j, Graph.render_width, Graph.render_height,
      Graph.render_grid g i j]
    by_cases hij : i < g.buf.width ∧ j < g.buf.height
    · simp [hij, Graph.render_data, Graph.render_renderer]
    · simp [hij]

/-- C1: for a histogram graph `hist(width, height, key)` with a dataset
of length at least 2, a cell `(x, y)` inside the buffer is rendered true
iff `key(data[index]) >= y/height`, where `index` truncates
`pos = len(data) * x / width`. -/
theorem claim_C1 {V : Type} (width height : ℕ) (key : V → ℚ) (data : List V)
    (x y : ℕ) (v : V) (hx : x < width) (hy : y < height) (hlen : 2 ≤ data.length)
    (hv : data[histIndex data.length width x]? = some v) :
    ((((hist width height key).set_data data).2).buf.grid x y = true
      ↔ key v ≥ (y : ℚ) / (height : ℚ)) := by
  rw [Graph.set_data_grid, hist_buf_width, hist_buf_height, hist_renderer_eq,
    if_pos (⟨hx, hy⟩ : x < width ∧ y < height)]
  unfold histRenderer
  rw [if_neg (by omega : ¬ data.length ≤ 1), hv]
  exact decide_eq_true_iff

/-- C1 witness at `width = height = 2`, `key = id`,
`data = [3/10, 7/10]`, cell `(0, 1)`. -/
theorem claim_C1_witness :
    (0 < 2 ∧ 1 < 2 ∧ 2 ≤ ([3/10, 7/10] : List ℚ).length)
    ∧ ((((hist 2 2 (fun q : ℚ => q)).set_data [3/10, 7/10]).2).buf.grid 0 1 = true
        ↔ (3/10 : ℚ) ≥ ((1 : ℕ) : ℚ) / ((2 : ℕ) : ℚ)) :=
  ⟨⟨by decide, by decide, by decide⟩,
    claim_C1 2 2 (fun q => q) [3/10, 7/10] 0 1 (3/10) (by decide) (by decide)
      (by decide) (by simp [histIndex, ratToUsize])⟩

/-- C2: a histogram graph whose current dataset has length 0 or 1
renders every cell of the buffer false. -/
theorem claim_C2 {V : Type} (width height : ℕ) (key : V → ℚ) (data : List V)
    (x y : ℕ) (hlen : data.length ≤ 1) (hx : x < width) (hy : y < height) :
    (((hist width height key).set_data data).2).buf.grid x y = false := by
  rw [Graph.set_data_grid, hist_buf_width, hist_buf_height, hist_renderer_eq,
    if_pos (⟨hx, hy⟩ : x < width ∧ y < height)]
  unfold histRenderer
  rw [if_pos hlen]

/-- C2 witness at `width = height = 1` with the empty dataset. -/
theorem claim_C2_witness :
    (([] : List ℚ).length ≤ 1 ∧ 0 < 1)
    ∧ (((hist 1 1 (fun q : ℚ => q)).set_data ([] : List ℚ)).2).buf.grid 0 0 = false :=
  ⟨⟨by decide, by decide⟩,
    claim_C2 1 1 (fun q => q) [] 0 0 (by decide) (by decide) (by decide)⟩

/-- C8: with `width ≥ len`, the histogram source index
`⌊len * x / width⌋` is monotone non-decreasing in the column `x` over
`[0, width)`. -/
theorem claim_C8 (len width x1 x2 : ℕ) (hlw : len ≤ width) (h12 : x1 ≤ x2)
    (h2 : x2 < width) :
    histIndex len width x1 ≤ histIndex len width x2 := by
  unfold histIndex ratToUsize
  have hmono : (len : ℚ) * (x1 : ℚ) / (width : ℚ) ≤ (len : ℚ) * (x2 : ℚ) / (width : ℚ) := by
    gcongr
  exact Int.toNat_le_toNat (Int.floor_le_floor hmono)

/-- C8 witness at `len = 2`, `width = 4`, columns 1 and 3. -/
theorem claim_C8_witness :
    (2 ≤ 4 ∧ 1 ≤ 3 ∧ 3 < 4) ∧ histIndex 2 4 1 ≤ histIndex 2 4 3 :=
  ⟨⟨by decide, by decide, by decide⟩, claim_C8 2 4 1 3 (by decide) (by decide) (by decide)⟩

/-- C9: for `width > 0`, dataset length `≥ 2` and `x < width`, the
histogram source index is strictly below the dataset length, so the
indexing `data[index]` in the renderer stays in bounds. -/
theorem claim_C9 (len width x : ℕ) (hw : 0 < width) (hlen : 2 ≤ len) (hx : x < width) :
    histIndex len width x < len := by
  unfold histIndex ratToUsize
  have hw' : (0 : ℚ) < (width : ℚ) := by exact_mod_cast hw
  have hl0 : (0 : ℚ) < (len : ℚ) := by
    have : 0 < len := by omega
    exact_mod_cast this
  have hpos : (len : ℚ) * (x : ℚ) / (width : ℚ) < (len : ℚ) := by
    rw [div_lt_iff₀ hw']
    have hxw : (x : ℚ) < (width : ℚ) := by exact_mod_cast hx
    exact mul_lt_mul_of_pos_left hxw hl0
  have hfl : ⌊(len : ℚ) * (x : ℚ) / (width : ℚ)⌋ < (len : ℤ) :=
    Int.floor_lt.mpr (by exact_mod_cast hpos)
  omega

/-- C9 witness at `len = 2`, `width = 3`, column 2. -/
theorem claim_C9_witness :
    (0 < 3 ∧ 2 ≤ 2 ∧ 2 < 3) ∧ histIndex 2 3 2 < 2 :=
  ⟨⟨by decide, by decide, by decide⟩, claim_C9 2 3 2 (by decide) (by decide) (by decide)⟩

/-- C5: a scatter cell `(x, y)` is rendered true iff some data point
has `(⌊hkey p * width⌋, ⌊vkey p * height⌋) = (x, y)`; in particular with
`width = height = 10` and the single point `0.5` (under identity keys)
exactly cell `(5, 5)` is true. -/
theorem claim_C5 :
    (∀ (V : Type) (width height : ℕ) (hkey vkey : V → ℚ) (data : List V) (x y : ℕ),
        x < width → y < height →
        (((((scatter width height hkey vkey).set_data data).2).buf.grid x y = true)
          ↔ ∃ p ∈ data, ⌊hkey p * (width : ℚ)⌋ = (x : ℤ) ∧ ⌊vkey p * (height : ℚ)⌋ = (y : ℤ)))
    ∧ (∀ x y : ℕ, x < 10 → y < 10 →
        (((((scatter 10 10 (fun q : ℚ => q) (fun q : ℚ => q)).set_data [(1/2 : ℚ)]).2).buf.grid x y = true)
          ↔ (x = 5 ∧ y = 5))) := by
  have hgen : ∀ (V : Type) (width height : ℕ) (hkey vkey : V → ℚ) (data : List V) (x y : ℕ),
      x < width → y < height →
      (((((scatter width height hkey vkey).set_data data).2).buf.grid x y = true)
        ↔ ∃ p ∈ data, ⌊hkey p * (width : ℚ)⌋ = (x : ℤ) ∧ ⌊vkey p * (height : ℚ)⌋ = (y : ℤ)) := by
    intro V width height hkey vkey data x y hx hy
    rw [Graph.set_data_grid, scatter_buf_width, scatter_buf_height, scatter_renderer_eq,
      if_pos (⟨hx, hy⟩ : x < width ∧ y < height)]
    unfold scatterRenderer
    rw [List.any_eq_true]
    simp only [decide_eq_true_eq]
  refine ⟨hgen, ?_⟩
  intro x y hx hy
  rw [hgen ℚ 10 10 (fun q => q) (fun q => q) [(1/2 : ℚ)] x y hx hy]
  have hfl : ⌊(1/2 : ℚ) * ((10 : ℕ) : ℚ)⌋ = 5 := by norm_num
  constructor
  · rintro ⟨p, hp, h1, h2⟩
    rw [List.mem_singleton] at hp
    subst hp
    rw [hfl] at h1 h2
    constructor
    · exact_mod_cast h1.symm
    · exact_mod_cast h2.symm
  · rintro ⟨rfl, rfl⟩
    refine ⟨1/2, List.mem_singleton.mpr rfl, ?_, ?_⟩
    · rw [hfl]; norm_num
    · rw [hfl]; norm_num

/-- C5 witness: the rendered scatter buffer at cell `(5, 5)` for the
single point `0.5` on a 10×10 grid. -/
theorem claim_C5_witness :
    ((((scatter 10 10 (fun q : ℚ => q) (fun q : ℚ => q)).set_data [(1/2 : ℚ)]).2).buf.grid 5 5 = true) :=
  (claim_C5.2 5 5 (by decide) (by decide)).mpr ⟨rfl, rfl⟩

/-- C7: `HBar::new(W, 0.0).get_cell(x, 0)` selects the empty glyph
(index 0) for all `x`, and `HBar::new(W, 1.0).get_cell(x, 0)` selects
the full glyph (index 8) for all `x < W`. -/
theorem claim_C7 (W : ℕ) :
    (∀ x : ℕ, (HBar.new W (F32q.fin 0)).glyphIndex x = 0
        ∧ ((HBar.new W (F32q.fin 0)).get_cell x 0).ch = ' ')
    ∧ (∀ x : ℕ, x < W →
        ((HBar.new W (F32q.fin 1)).glyphIndex x = 8
          ∧ ((HBar.new W (F32q.fin 1)).get_cell x 0).ch = '█')) := by
  constructor
  · intro x
    have hidx : (HBar.new W (F32q.fin 0)).glyphIndex x = 0 := by
      unfold HBar.glyphIndex HBar.new
      simp only [F32q.mul, F32q.sub, F32q.fmax, F32q.fmin, F32q.toUsize]
      rw [zero_mul, zero_sub, mul_neg]
      rw [max_eq_right (neg_nonpos_of_nonneg (by positivity))]
      rw [min_eq_left (by norm_num)]
      simp [ratToUsize]
    refine ⟨hidx, ?_⟩
    unfold HBar.get_cell
    rw [hidx]
    rfl
  · intro x hxW
    have hidx : (HBar.new W (F32q.fin 1)).glyphIndex x = 8 := by
      unfold HBar.glyphIndex HBar.new
      simp only [F32q.mul, F32q.sub, F32q.fmax, F32q.fmin, F32q.toUsize]
      rw [one_mul]
      have h1 : (1 : ℚ) ≤ (W : ℚ) - (x : ℚ) := by
        have hx1 : ((x : ℚ) + 1) ≤ (W : ℚ) := by exact_mod_cast hxW
        linarith
      rw [max_eq_left (by linarith), min_eq_right (by linarith)]
      unfold ratToUsize
      rw [show ((8 : ℚ)) = (((8 : ℤ)) : ℚ) by norm_num, Int.floor_intCast]
      rfl
    refine ⟨hidx, ?_⟩
    unfold HBar.get_cell
    rw [hidx]
    rfl

/-- C7 witness at `W = 3`: cell 5 of the empty bar and cell 1 of the
full bar. -/
theorem claim_C7_witness :
    (1 < 3)
    ∧ ((HBar.new 3 (F32q.fin 0)).glyphIndex 5 = 0
        ∧ ((HBar.new 3 (F32q.fin 0)).get_cell 5 0).ch = ' ')
    ∧ ((HBar.new 3 (F32q.fin 1)).glyphIndex 1 = 8
        ∧ ((HBar.new 3 (F32q.fin 1)).get_cell 1 0).ch = '█') :=
  ⟨by decide, (claim_C7 3).1 5, (claim_C7 3).2 1 (by decide)⟩

/-- C10: for every `HBar` value (NaN and values outside `[0, 1]`
included) and every cell, the computed glyph index stays in `[0, 8]`,
inside the 9-element `hblocks` palette. -/
theorem claim_C10 (value : F32q) (width x : ℕ) :
    (HBar.new width value).glyphIndex x ≤ 8
    ∧ (HBar.new width value).glyphIndex x < hblocks.length := by
  have h9 : hblocks.length = 9 := rfl
  have hmain : (HBar.new width value).glyphIndex x ≤ 8 := by
    unfold HBar.glyphIndex HBar.new
    cases value with
    | nan =>
      simp only [F32q.mul, F32q.sub, F32q.fmax, F32q.fmin, F32q.toUsize]
      rw [min_eq_left (by norm_num)]
      simp [ratToUsize]
    | fin q =>
      simp only [F32q.mul, F32q.sub, F32q.fmax, F32q.fmin, F32q.toUsize]
      unfold ratToUsize
      have hle : min (max (9 * (q * (width : ℚ) - (x : ℚ))) 0) 8 ≤ (8 : ℚ) :=
        min_le_right _ _
      have hfl : ⌊min (max (9 * (q * (width : ℚ) - (x : ℚ))) 0) 8⌋ ≤ ⌊(8 : ℚ)⌋ :=
        Int.floor_le_floor hle
      have h8 : ⌊(8 : ℚ)⌋ = 8 := by
        rw [show ((8 : ℚ)) = (((8 : ℤ)) : ℚ) by norm_num]
        exact Int.floor_intCast 8
      omega
  exact ⟨hmain, by omega⟩

end GraphLib
